import Mathlib

/-!
Verification of the dependency-analysis core: a shallow embedding of the
AST detector (`analysis-util.ts`, `detection-functions.ts`), the per-file
scanner and graph resolver (`package-graph.ts`), and the aggregator
(`output-util.ts`), together with theorems settling the specified claims.

Modelling conventions:
* JavaScript objects become Lean structures; estree syntax nodes become a
  mutual inductive type (`Node`/`NodeList`).  A child slot that can be
  `null` in estree (a declarator's `init`, a return statement's
  `argument`) is modelled as a `NodeList` holding zero or one node.
* The acorn walker (`walk.simple`, `walk.fullAncestor`) dispatches user
  callbacks by `node.type`; identifiers sitting in pattern positions
  (a declarator's id, an assignment's left side) are dispatched through
  the `Pattern`/`VariablePattern` overrides and never reach the callback,
  which the walk embedding reproduces with a pattern-slot flag.
* JavaScript runtime type errors (reading a property of `undefined`) are
  modelled with `Except Unit`; `Except.error ()` marks a thrown TypeError.
* Mutable `Map`s used only through `has`/`set`/`get` become association
  lists; object identity of graph nodes is modelled with an arena of
  nodes addressed by index.
-/

/-- Source span of a syntax node (`Position` in `package-graph.ts`). -/
structure Position where
  lineStart : Nat
  lineEnd : Nat
  colStart : Nat
  colEnd : Nat
deriving DecidableEq, Repr

def zeroPos : Position := ⟨0, 0, 0, 0⟩

/-- A detected pattern occurrence (`PointOfInterest` in `package-graph.ts`). -/
structure PointOfInterest where
  type : String
  fileName : String
  position : Position
deriving DecidableEq, Repr

/-- Builds a point of interest (`createPOI` in `analysis-util.ts`). -/
def createPOI (type fileName : String) (position : Position) : PointOfInterest :=
  ⟨type, fileName, position⟩

/-- Value carried by an estree `Literal` node. -/
inductive JsVal where
  | str (s : String)
  | num (n : Int)
  | bool (b : Bool)
  | null
deriving DecidableEq, Repr

/-- JavaScript truthiness of a literal value, as tested by `node.value`. -/
def JsVal.truthy : JsVal → Bool
  | .str s => s ≠ ""
  | .num n => n ≠ 0
  | .bool b => b
  | .null => false

/-- JavaScript `toString()` of a literal value. -/
def JsVal.toStr : JsVal → String
  | .str s => s
  | .num n => toString n
  | .bool b => if b then "true" else "false"
  | .null => "null"

mutual
/-- The estree syntax-node fragment the detector inspects. -/
inductive Node where
  | program (body : NodeList) (loc : Option Position)
  | exprStmt (expression : Node) (loc : Option Position)
  | varDecl (declarations : NodeList) (loc : Option Position)
  | varDeclarator (lhs : Node) (init : NodeList) (loc : Option Position)
  | ident (name : String) (loc : Option Position)
  | lit (value : JsVal) (loc : Option Position)
  | templateLit (quasis : List String) (expressions : NodeList) (loc : Option Position)
  | call (callee : Node) (args : NodeList) (loc : Option Position)
  | newExpr (callee : Node) (args : NodeList) (loc : Option Position)
  | member (obj : Node) (property : Node) (loc : Option Position)
  | assign (left : Node) (right : Node) (loc : Option Position)
  | logical (left : Node) (right : Node) (loc : Option Position)
  | conditional (test : Node) (consequent : Node) (alternate : Node) (loc : Option Position)
  | binop (op : String) (left : Node) (right : Node) (loc : Option Position)
  | ret (argument : NodeList) (loc : Option Position)
/-- A list of syntax nodes (child arrays of estree nodes). -/
inductive NodeList where
  | nil
  | cons (head : Node) (tail : NodeList)
end

/-- First element of a node list (`array[0]`: `undefined` when empty). -/
def NodeList.head? : NodeList → Option Node
  | .nil => none
  | .cons h _ => some h

/-- The `loc` property of a syntax node. -/
def Node.loc : Node → Option Position
  | .program _ l => l
  | .exprStmt _ l => l
  | .varDecl _ l => l
  | .varDeclarator _ _ l => l
  | .ident _ l => l
  | .lit _ l => l
  | .templateLit _ _ l => l
  | .call _ _ l => l
  | .newExpr _ _ l => l
  | .member _ _ l => l
  | .assign _ _ l => l
  | .logical _ _ l => l
  | .conditional _ _ _ l => l
  | .binop _ _ _ l => l
  | .ret _ l => l

/-- Line and column information of a node (`getPosition` in
`analysis-util.ts`): the node's `loc` data, or all zeroes without it. -/
def getPosition (node : Node) : Position :=
  match node.loc with
  | some p => p
  | none => zeroPos

/-- Whether a node is the identifier `id` (the
`arg.type === 'Identifier' && arg.name === id` test). -/
def isIdentNamed (id : String) : Node → Bool
  | .ident nm _ => nm = id
  | _ => false

/-- Whether `NodeList.any p l` holds for some element (`Array.some`). -/
def NodeList.any (p : Node → Bool) : NodeList → Bool
  | .nil => false
  | .cons h t => p h || NodeList.any p t

/-- One visit of the acorn walk: the visited node, its syntactic parent
(`ancestors[ancestors.length - 2]`), and whether the node fills the
object slot of a `MemberExpression` (`parent.object === n`). -/
structure Occ where
  node : Node
  parent : Option Node
  isObj : Bool

mutual
/-- Nodes visited by an acorn walk rooted at `n`, children before the
node itself, in source order.  `isPat` marks pattern slots (declarator
ids, assignment targets): identifiers there are dispatched through the
`VariablePattern` override and never reach walker callbacks. -/
def walkN (n : Node) (parent : Option Node) (isObj : Bool) (isPat : Bool) : List Occ :=
  (match n with
   | .program body _ => walkL body (some n)
   | .exprStmt e _ => walkN e (some n) false false
   | .varDecl ds _ => walkL ds (some n)
   | .varDeclarator b init _ => walkN b (some n) false true ++ walkL init (some n)
   | .ident _ _ => []
   | .lit _ _ => []
   | .templateLit _ es _ => walkL es (some n)
   | .call c as _ => walkN c (some n) false false ++ walkL as (some n)
   | .newExpr c as _ => walkN c (some n) false false ++ walkL as (some n)
   | .member o p _ => walkN o (some n) true false ++ walkN p (some n) false false
   | .assign l r _ => walkN l (some n) false true ++ walkN r (some n) false false
   | .conditional a b c _ =>
       walkN a (some n) false false ++ walkN b (some n) false false ++ walkN c (some n) false false
   | .logical l r _ => walkN l (some n) false false ++ walkN r (some n) false false
   | .binop _ l r _ => walkN l (some n) false false ++ walkN r (some n) false false
   | .ret a _ => walkL a (some n)) ++
  (match isPat, n with
   | true, .ident _ _ => []
   | _, _ => [⟨n, parent, isObj⟩])
/-- Walks every node of a list of children. -/
def walkL (l : NodeList) (parent : Option Node) : List Occ :=
  match l with
  | .nil => []
  | .cons h t => walkN h parent false false ++ walkL t parent
end

/-- All walk visits of a whole tree. -/
def walkAll (tree : Node) : List Occ := walkN tree none false false

example :
    (walkAll (.exprStmt (.ident "x" none) none)).map (fun o => o.isObj) = [false, false] := rfl

/-! ### `analysis-util.ts`: collectors over the walked tree -/

/-- Finds every call expression whose callee is the bare identifier `id`
and collects its first argument — `undefined` (here `none`) when the call
has no arguments (`findCallee` in `analysis-util.ts`; a `walk.simple`
visitor keyed on `CallExpression`, so `new` expressions never match). -/
def findCallee (id : String) (tree : Node) : List (Option Node) :=
  (walkAll tree).filterMap fun o =>
    match o.node with
    | .call (.ident nm _) args _ => if nm = id then some args.head? else none
    | _ => none

/-- Finds every member expression whose object is the bare identifier
`name` (`findObject` in `analysis-util.ts`). -/
def findObject (name : String) (tree : Node) : List Node :=
  (walkAll tree).filterMap fun o =>
    match o.node with
    | .member (.ident nm _) _ _ => if nm = name then some o.node else none
    | _ => none

/-- Statically resolves a call argument or computed property to a string
(`getArgument` in `analysis-util.ts`); `none` marks a dynamic value. -/
def getArgument (node : Node) : Option String :=
  match node with
  | .lit v _ => if v.truthy then some v.toStr else none
  | .templateLit qua exprs _ =>
      match exprs, qua with
      | .cons e .nil, ["", ""] =>
          (match e with
           | .lit v _ => if v.truthy then some v.toStr else none
           | _ => none)
      | _, _ => if qua.length = 1 then some (qua.headD "") else none
  | _ => none

/-- Parent shapes that flag a sensitive identifier as obfuscated
(the condition of `locateAliases` in `analysis-util.ts`). -/
def aliasParent (id : String) : Node → Bool
  | .varDeclarator _ _ _ => true
  | .assign _ _ _ => true
  | .logical _ _ _ => true
  | .conditional _ _ _ _ => true
  | .binop op _ _ _ => op = "+"
  | .call _ args _ => args.any (isIdentNamed id)
  | .ret arg _ =>
      match arg with
      | .cons a .nil => isIdentNamed id a
      | _ => false
  | _ => false

/-- Points of interest for aliased (obfuscated) uses of the identifier
`id` (`locateAliases` in `analysis-util.ts`). -/
def locateAliases (tree : Node) (file : String) (id : String) : List PointOfInterest :=
  (walkAll tree).filterMap fun o =>
    match o.node, o.parent with
    | .ident nm _, some par =>
        if nm = id then
          if aliasParent id par then
            some (createPOI ("Obfuscated " ++ id ++ " identifier") file (getPosition par))
          else none
        else none
    | _, _ => none

/-- Points of interest for property accesses on the identifier `id`
(`locatePropAccessesOfFuncs` in `analysis-util.ts`). -/
def locatePropAccessesOfFuncs (tree : Node) (file : String) (id : String) :
    List PointOfInterest :=
  (walkAll tree).filterMap fun o =>
    match o.node with
    | .ident nm _ =>
        if nm = id then
          match o.parent, o.isObj with
          | some par, true =>
              some (createPOI ("Access to a property of " ++ id) file (getPosition par))
          | _, _ => none
        else none
    | _ => none

/-- Locations of accesses to the named property among member expressions
(`locatePropertyAccesses` in `analysis-util.ts`). -/
def locatePropertyAccesses (property : String) (nodes : List Node) : List Position :=
  nodes.filterMap fun n =>
    match n with
    | .member _ p _ =>
        match p with
        | .ident nm _ => if nm = property then some (getPosition n) else none
        | _ =>
            match getArgument p with
            | some a => if a = property then some (getPosition n) else none
            | none => none
    | _ => none

/-- Locations of computed property accesses that do not resolve to a
literal (`locateIndexPropertyAccesses` in `analysis-util.ts`). -/
def locateIndexPropertyAccesses (nodes : List Node) : List Position :=
  nodes.filterMap fun n =>
    match n with
    | .member _ p _ =>
        match p with
        | .ident _ _ => none
        | _ =>
            match getArgument p with
            | none => some (getPosition n)
            | some _ => none
    | _ => none

/-- Points of interest for accesses to `object.property`
(`getAccesses` in `analysis-util.ts`). -/
def getAccesses (object property : String) (acornTree : Node) (file : String) :
    List PointOfInterest :=
  (locatePropertyAccesses property (findObject object acornTree)).map fun pos =>
    createPOI ("Access to " ++ object ++ "." ++ property) file pos

/-- Points of interest for obscured accesses to `object` and its
properties (`getDynamicAccesses` in `analysis-util.ts`). -/
def getDynamicAccesses (object : String) (acornTree : Node) (file : String) :
    List PointOfInterest :=
  ((locateIndexPropertyAccesses (findObject object acornTree)).map fun pos =>
    createPOI ("Obscured " ++ object ++ " property") file pos) ++
  locateAliases acornTree file object

/-- Body of the `requireNodes.forEach` loop of `getRequiredModules`:
builds the resolved-module and dynamic-argument lists, throwing (like
`getPosition(undefined)`) when a call had no argument. -/
def getRequiredModulesGo (file : String) :
    List (Option Node) → List PointOfInterest × List PointOfInterest →
    Except Unit (List PointOfInterest × List PointOfInterest)
  | [], acc => .ok acc
  | none :: _, _ => .error ()
  | some n :: rest, (req, dyn) =>
      let pos := getPosition n
      match getArgument n with
      | none =>
          getRequiredModulesGo file rest (req, dyn ++ [createPOI "Dynamic Require Arg" file pos])
      | some a => getRequiredModulesGo file rest (req ++ [createPOI a file pos], dyn)

/-- Points of interest for required modules, or for dynamic require
arguments when `dynamic` is set (`getRequiredModules` in
`analysis-util.ts`). -/
def getRequiredModules (requireNodes : List (Option Node)) (file : String)
    (dynamic : Bool := false) : Except Unit (List PointOfInterest) := do
  let (requiredModules, dynamicEvalModules) ← getRequiredModulesGo file requireNodes ([], [])
  pure (if dynamic then dynamicEvalModules else requiredModules)

/-- Points of interest for required modules that belong to `moduleList`
(`findModules` in `analysis-util.ts`). -/
def findModules (acornTree : Node) (file : String) (moduleList : List String) :
    Except Unit (List PointOfInterest) := do
  let modulesFound ← getRequiredModules (findCallee "require" acornTree) file false
  pure (modulesFound.filter fun mod => moduleList.contains mod.type)

/-! ### `detection-functions.ts`: the per-file rule catalogue -/

/-- Allow-list of I/O module names (`getIOModules`). -/
def ioModuleList : List String := ["http", "fs", "https", "http2", "net", "datagram"]

/-- Points of interest for required I/O modules (`getIOModules` in
`detection-functions.ts`). -/
def getIOModules (acornTree : Node) (file : String) : Except Unit (List PointOfInterest) :=
  findModules acornTree file ioModuleList

/-- Allow-list of arbitrary-execution module names
(`getArbitraryExecutionMods`). -/
def arbitraryExecutionMods : List String := ["child_process", "repl", "vm", "module"]

/-- Points of interest for required arbitrary-execution modules
(`getArbitraryExecutionMods` in `detection-functions.ts`). -/
def getArbitraryExecutionMods (acornTree : Node) (file : String) :
    Except Unit (List PointOfInterest) :=
  findModules acornTree file arbitraryExecutionMods

/-- Points of interest for unconventional uses of `require`
(`unusualUsesOfRequire` in `detection-functions.ts`). -/
def unusualUsesOfRequire (acornTree : Node) (file : String) :
    Except Unit (List PointOfInterest) := do
  let requireAliasPOIs := locateAliases acornTree file "require"
  let requireCalls := findCallee "require" acornTree
  let dynamicRequireArgs ← getRequiredModules requireCalls file true
  let accessedRequireProps := locatePropAccessesOfFuncs acornTree file "require"
  pure (requireAliasPOIs ++ dynamicRequireArgs ++ accessedRequireProps)

/-- The `forEach` loop turning collected callee arguments into fixed-type
points of interest (`foundStandardEvalCalls.forEach` in `getEvalCalls`
and `functionClassUsages.forEach` in `getFunctionClassAccesses`): reading
`getPosition` of an `undefined` argument throws. -/
def calleePOIsGo (T file : String) : List (Option Node) → Except Unit (List PointOfInterest)
  | [] => .ok []
  | none :: _ => .error ()
  | some n :: rest =>
      match calleePOIsGo T file rest with
      | .error e => .error e
      | .ok ps => .ok (createPOI T file (getPosition n) :: ps)

/-- Points of interest for usages of `eval` (`getEvalCalls` in
`detection-functions.ts`). -/
def getEvalCalls (acornTree : Node) (file : String) : Except Unit (List PointOfInterest) := do
  let evalPOIs ← calleePOIsGo "Eval Call" file (findCallee "eval" acornTree)
  let evalAliases := locateAliases acornTree file "eval"
  let evalPropAccesses := locatePropAccessesOfFuncs acornTree file "eval"
  pure (evalPOIs ++ evalAliases ++ evalPropAccesses)

/-- Points of interest for uses of `process.env` and obscured accesses to
`process` (`getEnvAccesses` in `detection-functions.ts`). -/
def getEnvAccesses (acornTree : Node) (file : String) : List PointOfInterest :=
  getAccesses "process" "env" acornTree file ++ getDynamicAccesses "process" acornTree file

/-- Points of interest for uses of the `Function` class
(`getFunctionClassAccesses` in `detection-functions.ts`). -/
def getFunctionClassAccesses (acornTree : Node) (file : String) :
    Except Unit (List PointOfInterest) := do
  let functionClassPOIs ←
    calleePOIsGo "Function constructor usage" file (findCallee "Function" acornTree)
  let functionAliases := locateAliases acornTree file "Function"
  let functionPropAccesses := locatePropAccessesOfFuncs acornTree file "Function"
  pure (functionClassPOIs ++ functionAliases ++ functionPropAccesses)

/-- Watched properties of `global` (`getAccessesToGlobalProps`). -/
def bannedProps : List String := ["Function", "require", "eval"]

/-- Points of interest for uses of watched global properties
(`getAccessesToGlobalProps` in `detection-functions.ts`). -/
def getAccessesToGlobalProps (acornTree : Node) (file : String) : List PointOfInterest :=
  (bannedProps.flatMap fun prop => getAccesses "global" prop acornTree file) ++
  getDynamicAccesses "global" acornTree file

/-- Syntax-error point of interest for unparseable contents
(`getSyntaxError` in `detection-functions.ts`); the parser collaborator
is abstracted as a function returning `none` on a parse error. -/
def getSyntaxError (parse : String → Option Node) (contents file : String) :
    Option PointOfInterest :=
  match parse contents with
  | none => some (createPOI "Syntax Error" file zeroPos)
  | some _ => none

/-- All points of interest of a single file (`getPointsOfInterest` in
`package-graph.ts`, with the detection-function array built in
`getPackagePOIList`): on a parse error exactly the syntax-error finding,
otherwise the concatenated results of the seven detection functions. -/
def getPointsOfInterest (parse : String → Option Node) (contents fileName : String) :
    Except Unit (List PointOfInterest) :=
  match parse contents with
  | none => .ok [createPOI "Syntax Error" fileName zeroPos]
  | some acornTree => do
      let l1 ← getIOModules acornTree fileName
      let l2 ← getArbitraryExecutionMods acornTree fileName
      let l3 ← unusualUsesOfRequire acornTree fileName
      let l4 ← getEvalCalls acornTree fileName
      let l5 := getEnvAccesses acornTree fileName
      let l6 ← getFunctionClassAccesses acornTree fileName
      let l7 := getAccessesToGlobalProps acornTree fileName
      pure (l1 ++ l2 ++ l3 ++ l4 ++ l5 ++ l6 ++ l7)

/-! ### Sanity checks of the detector embedding, mirroring `test-analysis.ts` -/

/-- Expression statement wrapping for one-liner examples. -/
def stmt1 (e : Node) : Node := .program (.cons (.exprStmt e none) .nil) none

/-- Declarator statement `const x = e;` for examples. -/
def declStmt (x : String) (e : Node) : Node :=
  .program (.cons (.varDecl (.cons (.varDeclarator (.ident x none) (.cons e .nil) none) .nil) none) .nil) none

example :  -- const a = require("http");
    getIOModules (declStmt "a" (.call (.ident "require" none)
      (.cons (.lit (.str "http") none) .nil) none)) "file" =
    .ok [createPOI "http" "file" zeroPos] := rfl

example :  -- const a = require(`${"http"}`);
    getIOModules (declStmt "a" (.call (.ident "require" none)
      (.cons (.templateLit ["", ""] (.cons (.lit (.str "http") none) .nil) none) .nil) none)) "file" =
    .ok [createPOI "http" "file" zeroPos] := rfl

example :  -- const a = require(`http`);
    getIOModules (declStmt "a" (.call (.ident "require" none)
      (.cons (.templateLit ["http"] .nil none) .nil) none)) "file" =
    .ok [createPOI "http" "file" zeroPos] := rfl

example :  -- const a = require("util"); → not an I/O module
    getIOModules (declStmt "a" (.call (.ident "require" none)
      (.cons (.lit (.str "util") none) .nil) none)) "file" = .ok [] := rfl

example :  -- const a = require("h" + "ttp"); → dynamic argument
    unusualUsesOfRequire (declStmt "a" (.call (.ident "require" none)
      (.cons (.binop "+" (.lit (.str "h") none) (.lit (.str "ttp") none) none) .nil) none)) "file" =
    .ok [createPOI "Dynamic Require Arg" "file" zeroPos] := rfl

example :  -- const a = require; → obfuscated identifier at the declarator
    unusualUsesOfRequire (declStmt "a" (.ident "require" none)) "file" =
    .ok [createPOI "Obfuscated require identifier" "file" zeroPos] := rfl

example :  -- a = require; → obfuscated identifier at the assignment
    unusualUsesOfRequire (stmt1 (.assign (.ident "a" none) (.ident "require" none) none)) "file" =
    .ok [createPOI "Obfuscated require identifier" "file" zeroPos] := rfl

example :  -- const a = global.require; → no unusual-require finding
    unusualUsesOfRequire (declStmt "a" (.member (.ident "global" none)
      (.ident "require" none) none)) "file" = .ok [] := rfl

example :  -- const e = eval(x)
    getEvalCalls (declStmt "e" (.call (.ident "eval" none)
      (.cons (.ident "x" none) .nil) none)) "file" =
    .ok [createPOI "Eval Call" "file" zeroPos] := rfl

example :  -- const e = eval.call(null, "x")
    getEvalCalls (declStmt "e" (.call (.member (.ident "eval" none) (.ident "call" none) none)
      (.cons (.lit .null none) (.cons (.lit (.str "x") none) .nil)) none)) "file" =
    .ok [createPOI "Access to a property of eval" "file" zeroPos] := rfl

example :  -- const r = process.env.SOME_TOKEN
    getEnvAccesses (declStmt "r" (.member (.member (.ident "process" none)
      (.ident "env" none) none) (.ident "SOME_TOKEN" none) none)) "file" =
    [createPOI "Access to process.env" "file" zeroPos] := rfl

example :  -- const r = process["e" + "nv"] → obscured property
    getEnvAccesses (declStmt "r" (.member (.ident "process" none)
      (.binop "+" (.lit (.str "e") none) (.lit (.str "nv") none) none) none)) "file" =
    [createPOI "Obscured process property" "file" zeroPos] := rfl

example :  -- const f = global.Function;
    getAccessesToGlobalProps (declStmt "f" (.member (.ident "global" none)
      (.ident "Function" none) none)) "file" =
    [createPOI "Access to global.Function" "file" zeroPos] := rfl

example :  -- const a = Function('a', x); → direct call detected
    getFunctionClassAccesses (declStmt "a" (.call (.ident "Function" none)
      (.cons (.lit (.str "a") none) (.cons (.ident "x" none) .nil)) none)) "file" =
    .ok [createPOI "Function constructor usage" "file" zeroPos] := rfl

/-! ### `package-graph.ts`: the graph resolver -/

/-- One lockfile dependency entry; only its resolved `version` field takes
part in attaching the root's direct dependencies (`Dependency` in
`package-graph.ts`, restricted to the fields Step 2 and Step 3 read). -/
structure LockEntry where
  version : String
deriving DecidableEq, Repr

/-- The manifest fields `generatePackageGraph` reads, in mapping
insertion order. -/
structure Manifest where
  name : String
  version : String
  dependencies : List (String × String)
  devDependencies : List (String × String)
deriving DecidableEq, Repr

/-- The lockfile fields `generatePackageGraph` reads (`PackageLock` in
`package-graph.ts`); `dependencies` is `none` when the lockfile has no
top-level dependency map. -/
structure PackageLock where
  name : String
  version : String
  dependencies : Option (List (String × LockEntry))
deriving DecidableEq, Repr

/-- The root node of a generated package graph, with its direct
dependencies reduced to their observable `(name, version)` pairs. -/
structure RootGraph where
  name : String
  version : String
  dependencies : List (String × String)
deriving DecidableEq, Repr

/-- The root scope of `generatePackageGraph` (its `rootMap`): the root
project's own node is registered first, then one node per hoisted
lockfile dependency; later `set` calls shadow earlier ones, so lookup
tries the hoisted entries before the project's own entry.  Every entry
maps a name to the `(name, version)` identity of the node created for
it. -/
def rootScope (pjson : Manifest) (lockDeps : List (String × LockEntry)) :
    List (String × (String × String)) :=
  (lockDeps.map fun e => (e.1, (e.1, e.2.version))) ++ [(pjson.name, (pjson.name, pjson.version))]

/-- Root-level behaviour of `generatePackageGraph` in `package-graph.ts`
(Steps 1-3): build the root scope, return the bare root when the lockfile
has no dependency map, and otherwise attach one child per name of the
manifest's `dependencies` map, in insertion order, throwing the mismatch
error on the first name missing from the root scope.  The recursive
Step 4 (`generatePackageGraphRec`) mutates the children of the hoisted
nodes and never changes which nodes are attached to the root, so it is
not part of this root-level view. -/
def generatePackageGraph (pjson : Manifest) (lock : PackageLock) :
    Except String RootGraph :=
  match lock.dependencies with
  | none => .ok ⟨pjson.name, pjson.version, []⟩
  | some lockDeps => do
      let children ← pjson.dependencies.mapM fun nr =>
        match (rootScope pjson lockDeps).lookup nr.1 with
        | none => Except.error "Dependencies of package.json and package-lock.json do not match"
        | some nv => Except.ok nv
      pure ⟨pjson.name, pjson.version, children⟩

/-! ### `resolvePaths`: path-keyed deduplication of graph nodes -/

mutual
/-- Input node of `resolvePaths` (a `PackageGraph` before resolution). -/
inductive RTree where
  | mk (name version : String) (dependencies : RForest)
/-- Dependency list of an input node. -/
inductive RForest where
  | nil
  | cons (t : RTree) (rest : RForest)
end

/-- Name of an input node. -/
def RTree.name : RTree → String
  | .mk n _ _ => n

/-- A resolved node (`PackageGraph<string>`): its `data` is the resolved
install path, its dependencies are arena indices of resolved nodes. -/
structure RNode where
  name : String
  version : String
  data : String
  dependencies : List Nat
deriving DecidableEq, Repr

/-- Mutable state of `resolvePaths`: the arena of node objects created so
far (object identity is the arena index) and the memo table
`updatedNodesMap` keyed by resolved path. -/
structure RState where
  arena : List RNode
  memo : List (String × Nat)
deriving DecidableEq, Repr

mutual
/-- The inner `resolvePathsRec` of `resolvePaths` in `package-graph.ts`:
resolve the node's path with `findPath` (abstracted here as the pure
function `fp` from module name and parent path to resolved path), resolve
all children against that path, then either return the memoised node for
the path or create, register and return a fresh node. -/
def resolvePathsRec (fp : String → String → String) :
    RTree → String → RState → Nat × RState
  | .mk nm ver deps, parentPath, s =>
      let path := fp nm parentPath
      let (ids, s1) := resolveChildren fp deps path s
      match s1.memo.lookup path with
      | none =>
          (s1.arena.length,
           ⟨s1.arena ++ [⟨nm, ver, path, ids⟩], (path, s1.arena.length) :: s1.memo⟩)
      | some i => (i, s1)
/-- Resolves a dependency list left to right, threading the state. -/
def resolveChildren (fp : String → String → String) :
    RForest → String → RState → List Nat × RState
  | .nil, _, s => ([], s)
  | .cons t rest, p, s =>
      let (i, s1) := resolvePathsRec fp t p s
      let (is, s2) := resolveChildren fp rest p s1
      (i :: is, s2)
end

/-- The outer `resolvePaths`: resolves every direct dependency of the
root against the root path with a fresh memo table and returns their
arena indices along with the final state (the root node itself is created
fresh and takes `rootPath` as its data). -/
def resolvePaths (fp : String → String → String) (rootNode : RTree) (rootPath : String) :
    List Nat × RState :=
  match rootNode with
  | .mk _ _ deps => resolveChildren fp deps rootPath ⟨[], []⟩

/-! ### `findPath`: directory walk locating a package's install path -/

/-- Filesystem collaborator interface used by `findPath`: existence and
directory checks (`util.exists`/`util.stat`) and directory listings
(`util.readdir`).  Absolute paths are segment lists from the root. -/
structure FileSys where
  pathExists : List String → Bool
  isDir : List String → Bool
  entries : List String → List String

/-- The parent directory (`path.dirname`); the filesystem root is its own
parent. -/
def dirUp (p : List String) : List String := p.dropLast

mutual
/-- Fuel-indexed embedding of `findPath` in `package-graph.ts`: probe
`parentPath/node_modules/mod`, else walk up to the nearest directory
listing a `package.json` and retry from there.  `none` means the fuel ran
out: the source function has no error result, so a run that exhausts
every fuel bound never terminates. -/
def findPath (fs : FileSys) (mod : String) : Nat → List String → Option (List String)
  | 0, _ => none
  | n + 1, parentPath =>
      let moduleFolder := parentPath ++ ["node_modules", mod]
      if fs.pathExists moduleFolder && fs.isDir moduleFolder then some moduleFolder
      else findPathWalkUp fs mod n (dirUp parentPath)
/-- The `while` loop of `findPath`: climb parents until one lists a
`package.json`. -/
def findPathWalkUp (fs : FileSys) (mod : String) : Nat → List String → Option (List String)
  | 0, _ => none
  | n + 1, currPath =>
      if (fs.entries currPath).contains "package.json" then findPath fs mod n currPath
      else findPathWalkUp fs mod n (dirUp currPath)
end

/-- Termination of `findPath` on an input, expressed in the fuel model:
some fuel bound suffices to produce a result. -/
def findPathTerminates (fs : FileSys) (mod : String) (p : List String) : Prop :=
  ∃ n r, findPath fs mod n p = some r

/-! ### `output-util.ts`: the aggregator -/

mutual
/-- A finding-annotated package tree (`PackageTree<PointOfInterest[]>`). -/
inductive PTree where
  | mk (name version : String) (data : List PointOfInterest) (dependencies : PTForest)
/-- Dependency list of a finding-annotated tree. -/
inductive PTForest where
  | nil
  | cons (t : PTree) (rest : PTForest)
end

/-- The `countedDependencies` key of a node (`name version`). -/
def PTree.key : PTree → String
  | .mk n v _ _ => n ++ " " ++ v

/-- Own finding count of a node (`packageTree.data.length`). -/
def PTree.dataLen : PTree → Nat
  | .mk _ _ d _ => d.length

mutual
/-- The inner `getNumberOfTransitiveDetectionsRec` of `output-util.ts`:
the node's own findings plus recursive counts of its children, where a
child already in `countedDependencies` is skipped and a new child is
registered before recursing. -/
def getTransRec : PTree → List String → Nat × List String
  | .mk _ _ data deps, m =>
      let (n, m') := getTransRecF deps m
      (data.length + n, m')
/-- The `forEach` loop of the recursive counter, with its membership
check and registration. -/
def getTransRecF : PTForest → List String → Nat × List String
  | .nil, m => (0, m)
  | .cons d rest, m =>
      if m.contains d.key then getTransRecF rest m
      else
        let m1 := d.key :: m
        let (n, m2) := getTransRec d m1
        let (n', m3) := getTransRecF rest m2
        (n + n', m3)
end

/-- The top-level `forEach` loop of `getNumberOfTransitiveDetections`:
unlike the recursive helper it neither consults nor extends
`countedDependencies` for the direct dependencies. -/
def getTransTop : PTForest → List String → Nat × List String
  | .nil, m => (0, m)
  | .cons d rest, m =>
      let (n, m1) := getTransRec d m
      let (n', m2) := getTransTop rest m1
      (n + n', m2)

/-- Transitive detection count of a node (`getNumberOfTransitiveDetections`
in `output-util.ts`). -/
def getNumberOfTransitiveDetections (packageTree : PTree) : Nat :=
  match packageTree with
  | .mk _ _ data deps => data.length + (getTransTop deps []).1

mutual
/-- Sum of the finding counts over the distinct (by `name version`)
nodes of a forest, each visited node registered before its subtree is
summed.  This is the aggregate the specification describes: every
distinct descendant is counted exactly once, wherever it occurs. -/
def distinctSumF : PTForest → List String → Nat × List String
  | .nil, seen => (0, seen)
  | .cons d rest, seen =>
      if seen.contains d.key then distinctSumF rest seen
      else
        let seen1 := d.key :: seen
        let (a, seen2) := distinctSumT d seen1
        let (b, seen3) := distinctSumF rest seen2
        (a + b, seen3)
/-- Finding count of a node plus the distinct sum of its subtree. -/
def distinctSumT : PTree → List String → Nat × List String
  | .mk _ _ data deps, seen =>
      let (a, seen') := distinctSumF deps seen
      (data.length + a, seen')
end

/-- Specified transitive count: the node's own findings plus the finding
counts of its distinct descendants, each counted once. -/
def specDistinctTransitiveCount (t : PTree) : Nat :=
  match t with
  | .mk _ _ data deps => data.length + (distinctSumF deps []).1

/-! ### Definitions used by the claim statements -/

/-- Length of a node list. -/
def NodeList.length : NodeList → Nat
  | .nil => 0
  | .cons _ t => t.length + 1

/-- The three literal require-argument call forms for a module name `m`:
the string literal `'m'`, the interpolation-free template literal with
single text segment `m`, and the template literal whose single
interpolated expression is the string literal `'m'` with no surrounding
text. -/
def isLiteralArgForm (m : String) (n : Node) : Prop :=
  (∃ l, n = .lit (.str m) l) ∨
  (∃ l, n = .templateLit [m] .nil l) ∨
  (∃ l l', n = .templateLit ["", ""] (.cons (.lit (.str m) l') .nil) l)

/-- A require argument the code statically resolves to a literal string:
a literal with truthy value, a template literal with exactly one text
segment, or a template literal whose single interpolated expression is a
literal with truthy value and whose two text segments are empty. -/
def staticallyResolved : Node → Bool
  | .lit v _ => v.truthy
  | .templateLit qua exprs _ =>
      match qua, exprs with
      | [_], .nil => true
      | ["", ""], .cons (.lit v _) .nil => v.truthy
      | _, _ => false
  | _ => false

/-- Parser well-formedness of a template-literal node: one more text
segment than interpolated expressions (trivial for other nodes). -/
def templateCountsWF : Node → Prop
  | .templateLit qua exprs _ => qua.length = exprs.length + 1
  | _ => True

/-- Monotone extension of the resolver memo table: every committed
`path → node` association is preserved. -/
def MemoLe (s s' : RState) : Prop :=
  ∀ k v, s.memo.lookup k = some v → s'.memo.lookup k = some v

/-- The filesystem of the `findPath` counterexample: no directory
contains anything, in particular no `node_modules` probe succeeds and no
`package.json` is ever listed. -/
def fsEmpty : FileSys := ⟨fun _ => false, fun _ => false, fun _ => []⟩

/-- Shared `c@1` node of the spec's end-to-end scenario: one finding. -/
def scenarioC1c : PTree := .mk "c" "1.0.0" [createPOI "fs" "c1/c1File2.js" zeroPos] .nil

/-- The `a@1` node of the spec's end-to-end scenario: two findings of its
own, depending on `b@1` (no findings) and on the shared `c@1`, while
`b@1` depends on the same `c@1`. -/
def scenarioC1a : PTree :=
  .mk "a" "1.0.0"
    [createPOI "Obfuscated require identifier" "a1/a1File1.js" zeroPos,
     createPOI "net" "a1/a1File2.js" zeroPos]
    (.cons (.mk "b" "1.0.0" [] (.cons scenarioC1c .nil)) (.cons scenarioC1c .nil))

/-- Manifest whose only declared dependency is a development dependency. -/
def manifestDevOnly : Manifest := ⟨"root-project", "1.0.0", [], [("d", "^1.0.0")]⟩

/-- Lockfile resolving the development dependency `d`. -/
def lockWithD : PackageLock := ⟨"root-project", "1.0.0", some [("d", ⟨"1.0.0"⟩)]⟩

/-- Manifest declaring the runtime dependency `a`. -/
def manifestWithA : Manifest := ⟨"root-project", "1.0.0", [("a", "^1.0.0")], []⟩

/-- Lockfile with no top-level dependency map at all. -/
def lockNoDeps : PackageLock := ⟨"root-project", "1.0.0", none⟩

/-- Abstract syntax tree of `const a = new Function('a', doSomethingBad);`. -/
def newFunctionTree : Node :=
  declStmt "a" (.newExpr (.ident "Function" none)
    (.cons (.lit (.str "a") none) (.cons (.ident "doSomethingBad" none) .nil)) none)

/-- Abstract syntax tree of `const a = Function('a', doSomethingBad);`. -/
def directFunctionTree : Node :=
  declStmt "a" (.call (.ident "Function" none)
    (.cons (.lit (.str "a") none) (.cons (.ident "doSomethingBad" none) .nil)) none)

/-- Abstract syntax tree of `eval('x');` as a direct call. -/
def directEvalTree : Node :=
  stmt1 (.call (.ident "eval" none) (.cons (.lit (.str "x") none) .nil) none)

/-- Abstract syntax tree of `eval();` — a zero-argument eval call. -/
def zeroArgEvalTree : Node := stmt1 (.call (.ident "eval" none) .nil none)

/-- Abstract syntax tree of `require('');` — a require call whose
argument is the empty string literal. -/
def emptyStringRequireTree : Node :=
  stmt1 (.call (.ident "require" none) (.cons (.lit (.str "") none) .nil) none)

example : getNumberOfTransitiveDetections scenarioC1a = 4 := rfl
example : specDistinctTransitiveCount scenarioC1a = 3 := rfl

/-! ### Helper lemmas: finding categories emitted by each collector -/

theorem locateAliases_type {tree : Node} {file id : String} {p : PointOfInterest}
    (h : p ∈ locateAliases tree file id) :
    p.type = "Obfuscated " ++ id ++ " identifier" := by
  obtain ⟨o, -, ho⟩ := List.mem_filterMap.mp h
  rcases o with ⟨n, par, flag⟩
  cases n <;> cases par <;> simp only [] at ho <;> try exact (Option.noConfusion ho)
  case ident.some nm l par =>
    split_ifs at ho with h1 h2
    · cases ho
      rfl

theorem locatePropAccessesOfFuncs_type {tree : Node} {file id : String} {p : PointOfInterest}
    (h : p ∈ locatePropAccessesOfFuncs tree file id) :
    p.type = "Access to a property of " ++ id := by
  obtain ⟨o, -, ho⟩ := List.mem_filterMap.mp h
  rcases o with ⟨n, par, flag⟩
  cases n <;> simp only [] at ho <;> try exact (Option.noConfusion ho)
  case ident nm l =>
    split_ifs at ho with h1
    all_goals
      first
        | exact (Option.noConfusion ho)
        | (cases par <;> cases flag <;> simp only [] at ho <;>
            first
              | exact (Option.noConfusion ho)
              | (cases ho; rfl))

theorem getAccesses_type {object property : String} {tree : Node} {file : String}
    {p : PointOfInterest} (h : p ∈ getAccesses object property tree file) :
    p.type = "Access to " ++ object ++ "." ++ property := by
  obtain ⟨pos, -, hp⟩ := List.mem_map.mp h
  cases hp
  rfl

theorem getDynamicAccesses_type {object : String} {tree : Node} {file : String}
    {p : PointOfInterest} (h : p ∈ getDynamicAccesses object tree file) :
    p.type = "Obscured " ++ object ++ " property" ∨
      p.type = "Obfuscated " ++ object ++ " identifier" := by
  rcases List.mem_append.mp h with h' | h'
  · obtain ⟨pos, -, hp⟩ := List.mem_map.mp h'
    cases hp
    exact Or.inl rfl
  · exact Or.inr (locateAliases_type h')

theorem getRequiredModulesGo_dyn_type {file : String} :
    ∀ (ns : List (Option Node)) (req dyn res₁ res₂ : List PointOfInterest),
    getRequiredModulesGo file ns (req, dyn) = .ok (res₁, res₂) →
    (∀ p ∈ dyn, p.type = "Dynamic Require Arg") →
    ∀ p ∈ res₂, p.type = "Dynamic Require Arg" := by
  intro ns
  induction ns with
  | nil =>
      intro req dyn res₁ res₂ h hdyn
      simp only [getRequiredModulesGo] at h
      cases h
      exact hdyn
  | cons o rest ih =>
      intro req dyn res₁ res₂ h hdyn
      cases o with
      | none => exact (Except.noConfusion h)
      | some n =>
          simp only [getRequiredModulesGo] at h
          cases harg : getArgument n with
          | none =>
              rw [harg] at h
              refine ih _ _ _ _ h ?_
              intro p hp
              rcases List.mem_append.mp hp with hp' | hp'
              · exact hdyn p hp'
              · simp only [List.mem_singleton] at hp'
                subst hp'
                rfl
          | some a =>
              rw [harg] at h
              exact ih _ _ _ _ h hdyn

theorem getRequiredModules_dyn_type {ns : List (Option Node)} {file : String}
    {l : List PointOfInterest} (h : getRequiredModules ns file true = .ok l) :
    ∀ p ∈ l, p.type = "Dynamic Require Arg" := by
  cases hgo : getRequiredModulesGo file ns ([], []) with
  | error e =>
      simp [getRequiredModules, hgo] at h
  | ok pair =>
      rcases pair with ⟨req, dyn⟩
      simp only [getRequiredModules, hgo, Except.bind, bind, pure, Except.pure, if_true,
        Except.ok.injEq] at h
      subst h
      exact getRequiredModulesGo_dyn_type ns [] [] req dyn hgo (by intro p hp; cases hp)

theorem findModules_type {tree : Node} {file : String} {moduleList : List String}
    {l : List PointOfInterest} (h : findModules tree file moduleList = .ok l) :
    ∀ p ∈ l, p.type ∈ moduleList := by
  cases hmods : getRequiredModules (findCallee "require" tree) file false with
  | error e =>
      simp [findModules, hmods] at h
  | ok mods =>
      simp only [findModules, hmods, Except.bind, bind, pure, Except.pure,
        Except.ok.injEq] at h
      subst h
      intro p hp
      have := (List.mem_filter.mp hp).2
      simpa using this

theorem calleePOIsGo_type {T file : String} :
    ∀ (ns : List (Option Node)) (res : List PointOfInterest),
    calleePOIsGo T file ns = .ok res → ∀ p ∈ res, p.type = T := by
  intro ns
  induction ns with
  | nil =>
      intro res h
      cases h
      intro p hp
      cases hp
  | cons o rest ih =>
      intro res h
      cases o with
      | none => exact (Except.noConfusion h)
      | some n =>
          simp only [calleePOIsGo] at h
          cases hrec : calleePOIsGo T file rest with
          | error e =>
              rw [hrec] at h
              exact (Except.noConfusion h)
          | ok ps =>
              rw [hrec] at h
              cases h
              intro p hp
              rcases List.mem_cons.mp hp with hp' | hp'
              · subst hp'
                rfl
              · exact ih ps hrec p hp'

theorem unusualUsesOfRequire_type {tree : Node} {file : String} {l : List PointOfInterest}
    {p : PointOfInterest} (h : unusualUsesOfRequire tree file = .ok l) (hp : p ∈ l) :
    p.type = "Obfuscated require identifier" ∨ p.type = "Dynamic Require Arg" ∨
      p.type = "Access to a property of require" := by
  cases hdyn : getRequiredModules (findCallee "require" tree) file true with
  | error e => simp [unusualUsesOfRequire, hdyn] at h
  | ok dyn =>
      simp only [unusualUsesOfRequire, hdyn, Except.bind, bind, pure, Except.pure,
        Except.ok.injEq] at h
      subst h
      simp only [List.mem_append, or_assoc] at hp
      rcases hp with h' | h' | h'
      · exact Or.inl (locateAliases_type h')
      · exact Or.inr (Or.inl (getRequiredModules_dyn_type hdyn p h'))
      · exact Or.inr (Or.inr (locatePropAccessesOfFuncs_type h'))

theorem getEvalCalls_type {tree : Node} {file : String} {l : List PointOfInterest}
    {p : PointOfInterest} (h : getEvalCalls tree file = .ok l) (hp : p ∈ l) :
    p.type = "Eval Call" ∨ p.type = "Obfuscated eval identifier" ∨
      p.type = "Access to a property of eval" := by
  cases hcalls : calleePOIsGo "Eval Call" file (findCallee "eval" tree) with
  | error e => simp [getEvalCalls, hcalls] at h
  | ok evalPOIs =>
      simp only [getEvalCalls, hcalls, Except.bind, bind, pure, Except.pure,
        Except.ok.injEq] at h
      subst h
      simp only [List.mem_append, or_assoc] at hp
      rcases hp with h' | h' | h'
      · exact Or.inl (calleePOIsGo_type _ _ hcalls p h')
      · exact Or.inr (Or.inl (locateAliases_type h'))
      · exact Or.inr (Or.inr (locatePropAccessesOfFuncs_type h'))

theorem getFunctionClassAccesses_type {tree : Node} {file : String} {l : List PointOfInterest}
    {p : PointOfInterest} (h : getFunctionClassAccesses tree file = .ok l) (hp : p ∈ l) :
    p.type = "Function constructor usage" ∨ p.type = "Obfuscated Function identifier" ∨
      p.type = "Access to a property of Function" := by
  cases hcalls : calleePOIsGo "Function constructor usage" file (findCallee "Function" tree) with
  | error e => simp [getFunctionClassAccesses, hcalls] at h
  | ok fnPOIs =>
      simp only [getFunctionClassAccesses, hcalls, Except.bind, bind, pure, Except.pure,
        Except.ok.injEq] at h
      subst h
      simp only [List.mem_append, or_assoc] at hp
      rcases hp with h' | h' | h'
      · exact Or.inl (calleePOIsGo_type _ _ hcalls p h')
      · exact Or.inr (Or.inl (locateAliases_type h'))
      · exact Or.inr (Or.inr (locatePropAccessesOfFuncs_type h'))

theorem getEnvAccesses_type {tree : Node} {file : String} {p : PointOfInterest}
    (hp : p ∈ getEnvAccesses tree file) :
    p.type = "Access to process.env" ∨ p.type = "Obscured process property" ∨
      p.type = "Obfuscated process identifier" := by
  rcases List.mem_append.mp hp with h' | h'
  · exact Or.inl (getAccesses_type h')
  · rcases getDynamicAccesses_type h' with h'' | h''
    · exact Or.inr (Or.inl h'')
    · exact Or.inr (Or.inr h'')

theorem getAccessesToGlobalProps_type {tree : Node} {file : String} {p : PointOfInterest}
    (hp : p ∈ getAccessesToGlobalProps tree file) :
    p.type = "Access to global.Function" ∨ p.type = "Access to global.require" ∨
      p.type = "Access to global.eval" ∨ p.type = "Obscured global property" ∨
      p.type = "Obfuscated global identifier" := by
  rcases List.mem_append.mp hp with h' | h'
  · obtain ⟨prop, hprop, hmem⟩ := List.mem_flatMap.mp h'
    have ht := getAccesses_type hmem
    simp only [bannedProps, List.mem_cons, List.mem_singleton] at hprop
    rcases hprop with rfl | rfl | rfl | hfalse
    · exact Or.inl ht
    · exact Or.inr (Or.inl ht)
    · exact Or.inr (Or.inr (Or.inl ht))
    · cases hfalse
  · rcases getDynamicAccesses_type h' with h'' | h''
    · exact Or.inr (Or.inr (Or.inr (Or.inl h'')))
    · exact Or.inr (Or.inr (Or.inr (Or.inr h'')))

theorem mem_io_ne_syntax {s : String} (h : s ∈ ioModuleList) : s ≠ "Syntax Error" := by
  simp only [ioModuleList, List.mem_cons, List.not_mem_nil, or_false] at h
  rcases h with rfl | rfl | rfl | rfl | rfl | rfl <;> decide

theorem mem_arb_ne_syntax {s : String} (h : s ∈ arbitraryExecutionMods) : s ≠ "Syntax Error" := by
  simp only [arbitraryExecutionMods, List.mem_cons, List.not_mem_nil, or_false] at h
  rcases h with rfl | rfl | rfl | rfl <;> decide

/-- No detection rule of the per-file pipeline can emit a finding of
category `Syntax Error` on a parsed tree. -/
theorem getPointsOfInterest_parsed_no_syntax_error
    {parse : String → Option Node} {contents file : String} {tree : Node}
    {l : List PointOfInterest} {p : PointOfInterest}
    (hparse : parse contents = some tree)
    (h : getPointsOfInterest parse contents file = .ok l) (hp : p ∈ l) :
    p.type ≠ "Syntax Error" := by
  unfold getPointsOfInterest at h
  rw [hparse] at h
  cases h1 : getIOModules tree file with
  | error e => simp [h1, Except.bind, bind] at h
  | ok l1 =>
  cases h2 : getArbitraryExecutionMods tree file with
  | error e => simp [h1, h2, Except.bind, bind] at h
  | ok l2 =>
  cases h3 : unusualUsesOfRequire tree file with
  | error e => simp [h1, h2, h3, Except.bind, bind] at h
  | ok l3 =>
  cases h4 : getEvalCalls tree file with
  | error e => simp [h1, h2, h3, h4, Except.bind, bind] at h
  | ok l4 =>
  cases h6 : getFunctionClassAccesses tree file with
  | error e => simp [h1, h2, h3, h4, h6, Except.bind, bind] at h
  | ok l6 =>
  simp only [h1, h2, h3, h4, h6, Except.bind, bind, pure, Except.pure, Except.ok.injEq] at h
  subst h
  simp only [List.mem_append, or_assoc] at hp
  rcases hp with hp | hp | hp | hp | hp | hp | hp
  · exact mem_io_ne_syntax (findModules_type h1 p hp)
  · exact mem_arb_ne_syntax (findModules_type h2 p hp)
  · rcases unusualUsesOfRequire_type h3 hp with ht | ht | ht <;> (rw [ht]; decide)
  · rcases getEvalCalls_type h4 hp with ht | ht | ht <;> (rw [ht]; decide)
  · rcases getEnvAccesses_type hp with ht | ht | ht <;> (rw [ht]; decide)
  · rcases getFunctionClassAccesses_type h6 hp with ht | ht | ht <;> (rw [ht]; decide)
  · rcases getAccessesToGlobalProps_type hp with ht | ht | ht | ht | ht <;> (rw [ht]; decide)

/-- Abstract syntax tree of `require('http');`. -/
def requireHttpTree : Node :=
  stmt1 (.call (.ident "require" none) (.cons (.lit (.str "http") none) .nil) none)

/-- A parser collaborator for witnesses: fails on the contents `"bad"`,
and parses anything else as `require('http');`. -/
def parserW : String → Option Node :=
  fun s => if s = "bad" then none else some requireHttpTree

/-- C2: a file that fails to parse yields exactly one finding, of
category Syntax Error; a file that parses yields no Syntax Error finding
from any detection rule. -/
theorem claim_C2_syntax_error_containment (parse : String → Option Node)
    (contents file : String) :
    (parse contents = none →
      getPointsOfInterest parse contents file = .ok [createPOI "Syntax Error" file zeroPos]) ∧
    (∀ (tree : Node) (l : List PointOfInterest), parse contents = some tree →
      getPointsOfInterest parse contents file = .ok l →
      ∀ p ∈ l, p.type ≠ "Syntax Error") := by
  constructor
  · intro hfail
    unfold getPointsOfInterest
    rw [hfail]
  · intro tree l hparse h p hp
    exact getPointsOfInterest_parsed_no_syntax_error hparse h hp

/-- C2 witness: on the unparseable contents `"bad"` the scan returns
exactly the Syntax Error finding, and on parseable contents the scan of
`require('http')` contains no Syntax Error finding. -/
theorem claim_C2_syntax_error_containment_witness :
    parserW "bad" = none ∧
    getPointsOfInterest parserW "bad" "f" = .ok [createPOI "Syntax Error" "f" zeroPos] ∧
    (createPOI "http" "f" zeroPos).type ≠ "Syntax Error" := by
  refine ⟨rfl, (claim_C2_syntax_error_containment parserW "bad" "f").1 rfl, ?_⟩
  exact (claim_C2_syntax_error_containment parserW "ok" "f").2 requireHttpTree
    [createPOI "http" "f" zeroPos] rfl rfl (createPOI "http" "f" zeroPos) (by simp)

/-- Computation of `getIOModules` on a file whose single require call
carries one of the three literal argument forms. -/
theorem getIOModules_literal_form (tree : Node) (file m : String) (argNode : Node)
    (hcall : findCallee "require" tree = [some argNode])
    (hform : isLiteralArgForm m argNode) :
    getIOModules tree file =
      .ok (if ioModuleList.contains m then [createPOI m file (getPosition argNode)] else []) := by
  rcases hform with ⟨l, rfl⟩ | ⟨l, rfl⟩ | ⟨l, l', rfl⟩
  · by_cases hm : m = ""
    · subst hm
      simp [getIOModules, findModules, hcall, getRequiredModules, getRequiredModulesGo,
        getArgument, JsVal.truthy, bind, Except.bind, pure, Except.pure, ioModuleList]
    · simp only [getIOModules, findModules, hcall, getRequiredModules, getRequiredModulesGo,
        getArgument, JsVal.truthy, JsVal.toStr, hm, bind, Except.bind, pure, Except.pure,
        createPOI, List.filter, decide_not, decide_False, Bool.not_false, if_true, if_false]
      by_cases hmem : m ∈ ioModuleList <;> simp [hmem, createPOI]
  · simp only [getIOModules, findModules, hcall, getRequiredModules, getRequiredModulesGo,
      getArgument, bind, Except.bind, pure, Except.pure, createPOI, List.filter]
    by_cases hmem : m ∈ ioModuleList <;> simp [hmem, createPOI]
  · by_cases hm : m = ""
    · subst hm
      simp [getIOModules, findModules, hcall, getRequiredModules, getRequiredModulesGo,
        getArgument, JsVal.truthy, bind, Except.bind, pure, Except.pure, ioModuleList]
    · simp only [getIOModules, findModules, hcall, getRequiredModules, getRequiredModulesGo,
        getArgument, JsVal.truthy, JsVal.toStr, hm, bind, Except.bind, pure, Except.pure,
        createPOI, List.filter, decide_not, decide_False, Bool.not_false, if_true, if_false]
      by_cases hmem : m ∈ ioModuleList <;> simp [hmem, createPOI]

/-- C3: a single require call with any of the three literal argument
forms for module name `m` yields exactly one finding of category `m` when
`m` is in the I/O allow-list and none otherwise; moreover every finding
`getIOModules` ever emits has a category from the allow-list. -/
theorem claim_C3_io_module_allowlist :
    (∀ (tree : Node) (file m : String) (argNode : Node),
      findCallee "require" tree = [some argNode] →
      isLiteralArgForm m argNode →
      getIOModules tree file =
        .ok (if ioModuleList.contains m then [createPOI m file (getPosition argNode)] else [])) ∧
    (∀ (tree : Node) (file : String) (l : List PointOfInterest),
      getIOModules tree file = .ok l → ∀ p ∈ l, p.type ∈ ioModuleList) :=
  ⟨getIOModules_literal_form, fun _ _ _ h p hp => findModules_type h p hp⟩

/-- C3 witness: `require('http')` yields exactly the finding of category
`http`, and a non-allow-listed name such as `util` yields nothing. -/
theorem claim_C3_io_module_allowlist_witness :
    findCallee "require" requireHttpTree = [some (.lit (.str "http") none)] ∧
    isLiteralArgForm "http" (.lit (.str "http") none) ∧
    getIOModules requireHttpTree "f" = .ok [createPOI "http" "f" zeroPos] ∧
    getIOModules (stmt1 (.call (.ident "require" none)
      (.cons (.lit (.str "util") none) .nil) none)) "f" = .ok [] := by
  refine ⟨rfl, Or.inl ⟨none, rfl⟩, ?_, ?_⟩
  · have h := claim_C3_io_module_allowlist.1 requireHttpTree "f" "http"
      (.lit (.str "http") none) rfl (Or.inl ⟨none, rfl⟩)
    simpa [ioModuleList] using h
  · have h := claim_C3_io_module_allowlist.1
      (stmt1 (.call (.ident "require" none) (.cons (.lit (.str "util") none) .nil) none))
      "f" "util" (.lit (.str "util") none) rfl (Or.inl ⟨none, rfl⟩)
    simpa [ioModuleList] using h

example : unusualUsesOfRequire emptyStringRequireTree "f" =
    .ok [createPOI "Dynamic Require Arg" "f" zeroPos] := rfl

theorem getArgument_isSome_eq_staticallyResolved (n : Node) (hwf : templateCountsWF n) :
    (getArgument n).isSome = staticallyResolved n := by
  cases n with
  | lit v l => cases htr : v.truthy <;> simp [getArgument, staticallyResolved, htr]
  | templateLit qua exprs l =>
      simp only [templateCountsWF] at hwf
      cases exprs with
      | nil =>
          match qua, hwf with
          | [q], _ => simp [getArgument, staticallyResolved]
      | cons e rest =>
          cases rest with
          | nil =>
              match qua, hwf with
              | [q1, q2], _ =>
                  by_cases h1 : q1 = ""
                  · by_cases h2 : q2 = ""
                    · subst h1
                      subst h2
                      cases e with
                      | lit v l' =>
                          cases htr : v.truthy <;>
                            simp [getArgument, staticallyResolved, htr]
                      | _ => simp [getArgument, staticallyResolved]
                    · simp [getArgument, staticallyResolved, h1, h2]
                  · simp [getArgument, staticallyResolved, h1]
          | cons e2 rest2 =>
              match qua, hwf with
              | q1 :: q2 :: q3 :: r, _ =>
                  simp [getArgument, staticallyResolved, NodeList.length]
  | _ => simp [getArgument, staticallyResolved]

/-- C4 counterexample: `require('')` has a string literal as its
argument, yet the scan emits a Dynamic Require Arg finding for it
(the code's truthiness test `node.value` rejects the empty string), so a
string-literal argument does not always avoid that finding. -/
theorem claim_C4_counterexample :
    unusualUsesOfRequire emptyStringRequireTree "f" =
      .ok [createPOI "Dynamic Require Arg" "f" zeroPos] := rfl

/-- C4 (amended): for a single require call, a Dynamic Require Arg
finding is produced exactly when the argument is not statically resolved,
where resolved means a literal with truthy value (so not the empty
string), a template literal with exactly one text segment, or a template
literal whose single interpolated expression is a truthy literal with no
surrounding text. -/
theorem claim_C4_dynamic_require_iff (tree : Node) (file : String) (argNode : Node)
    (hcall : findCallee "require" tree = [some argNode])
    (hwf : templateCountsWF argNode) :
    Except.map (List.filter fun p => p.type == "Dynamic Require Arg")
        (unusualUsesOfRequire tree file) =
      .ok (if staticallyResolved argNode then []
           else [createPOI "Dynamic Require Arg" file (getPosition argNode)]) := by
  have hal : ∀ p ∈ locateAliases tree file "require", ¬(p.type == "Dynamic Require Arg") := by
    intro p hp
    rw [locateAliases_type hp]
    decide
  have hpr : ∀ p ∈ locatePropAccessesOfFuncs tree file "require",
      ¬(p.type == "Dynamic Require Arg") := by
    intro p hp
    rw [locatePropAccessesOfFuncs_type hp]
    decide
  cases harg : getArgument argNode with
  | none =>
      have hres : staticallyResolved argNode = false := by
        have h := getArgument_isSome_eq_staticallyResolved argNode hwf
        rw [harg] at h
        exact h.symm ▸ rfl
      have hdyn : getRequiredModules (findCallee "require" tree) file true =
          .ok [createPOI "Dynamic Require Arg" file (getPosition argNode)] := by
        rw [hcall]
        simp [getRequiredModules, getRequiredModulesGo, harg, bind, Except.bind, pure,
          Except.pure]
      simp only [unusualUsesOfRequire, hdyn, Except.bind, bind, pure, Except.pure, Except.map,
        hres, Bool.false_eq_true, if_false]
      simp only [List.filter_append, List.filter_eq_nil_iff.mpr hal,
        List.filter_eq_nil_iff.mpr hpr, List.nil_append, List.append_nil]
      simp [createPOI]
  | some a =>
      have hres : staticallyResolved argNode = true := by
        have h := getArgument_isSome_eq_staticallyResolved argNode hwf
        rw [harg] at h
        exact h.symm ▸ rfl
      have hdyn : getRequiredModules (findCallee "require" tree) file true = .ok [] := by
        rw [hcall]
        simp [getRequiredModules, getRequiredModulesGo, harg, bind, Except.bind, pure,
          Except.pure]
      simp only [unusualUsesOfRequire, hdyn, Except.bind, bind, pure, Except.pure, Except.map,
        hres, if_true]
      simp only [List.filter_append, List.filter_eq_nil_iff.mpr hal,
        List.filter_eq_nil_iff.mpr hpr, List.nil_append, List.append_nil, List.filter_nil]

/-- C4 witness: `require(a + b)` with non-literal operands yields exactly
one Dynamic Require Arg finding. -/
theorem claim_C4_dynamic_require_iff_witness :
    findCallee "require"
        (stmt1 (.call (.ident "require" none)
          (.cons (.binop "+" (.ident "a" none) (.ident "b" none) none) .nil) none)) =
      [some (.binop "+" (.ident "a" none) (.ident "b" none) none)] ∧
    templateCountsWF (.binop "+" (.ident "a" none) (.ident "b" none) none) ∧
    Except.map (List.filter fun p => p.type == "Dynamic Require Arg")
        (unusualUsesOfRequire
          (stmt1 (.call (.ident "require" none)
            (.cons (.binop "+" (.ident "a" none) (.ident "b" none) none) .nil) none)) "f") =
      .ok [createPOI "Dynamic Require Arg" "f" zeroPos] := by
  refine ⟨rfl, trivial, ?_⟩
  have h := claim_C4_dynamic_require_iff
    (stmt1 (.call (.ident "require" none)
      (.cons (.binop "+" (.ident "a" none) (.ident "b" none) none) .nil) none)) "f"
    (.binop "+" (.ident "a" none) (.ident "b" none) none) rfl trivial
  simpa [staticallyResolved] using h

/-- C1: on the end-to-end scenario graph (`a@1` with 2 findings depends
on `b@1` with none and on the shared `c@1` with 1 finding, and `b@1`
depends on the same `c@1`), `getNumberOfTransitiveDetections` returns 4:
its top-level loop neither consults nor registers the visited map for
direct dependencies, so the shared `c@1` is counted twice.  The distinct
descendant sum the specification describes is 3. -/
theorem claim_C1_transitive_count_code_bug :
    getNumberOfTransitiveDetections scenarioC1a = 4 ∧
    specDistinctTransitiveCount scenarioC1a = 3 :=
  ⟨rfl, rfl⟩

/-- C9: `const a = new Function('a', doSomethingBad);` produces no
finding at all — the `walk.simple` visitor of `findCallee` is keyed on
`CallExpression` and a `NewExpression` node never dispatches it — while
the direct calls `Function('a', doSomethingBad)` and `eval('x')` are
detected.  The repository's own test expects one `Function constructor
usage` finding for the `new` form. -/
theorem claim_C9_new_function_missed :
    getFunctionClassAccesses newFunctionTree "file" = .ok [] ∧
    getFunctionClassAccesses directFunctionTree "file" =
      .ok [createPOI "Function constructor usage" "file" zeroPos] ∧
    getEvalCalls directEvalTree "file" = .ok [createPOI "Eval Call" "file" zeroPos] :=
  ⟨rfl, rfl, rfl⟩

/-- C10 counterexample: `eval();` parses, yet `getEvalCalls` throws — the
zero-argument call makes `findCallee` collect `undefined`, and
`getPosition(undefined)` raises a TypeError. -/
theorem claim_C10_counterexample :
    getEvalCalls zeroArgEvalTree "f" = .error () := rfl

theorem getRequiredModulesGo_isSome_ok (file : String) :
    ∀ (ns : List (Option Node)) (acc : List PointOfInterest × List PointOfInterest),
    (∀ o ∈ ns, o.isSome) → ∃ r, getRequiredModulesGo file ns acc = .ok r := by
  intro ns
  induction ns with
  | nil => exact fun acc _ => ⟨acc, rfl⟩
  | cons o rest ih =>
      intro acc h
      cases o with
      | none =>
          have := h none (List.mem_cons_self _ _)
          simp [Option.isSome] at this
      | some n =>
          have hrest : ∀ o ∈ rest, o.isSome := fun o ho => h o (List.mem_cons_of_mem _ ho)
          rcases acc with ⟨req, dyn⟩
          simp only [getRequiredModulesGo]
          cases harg : getArgument n <;> simp only [harg] <;> exact ih _ hrest

theorem calleePOIsGo_isSome_ok (T file : String) :
    ∀ (ns : List (Option Node)), (∀ o ∈ ns, o.isSome) →
    ∃ r, calleePOIsGo T file ns = .ok r := by
  intro ns
  induction ns with
  | nil => exact fun _ => ⟨[], rfl⟩
  | cons o rest ih =>
      intro h
      cases o with
      | none =>
          have := h none (List.mem_cons_self _ _)
          simp [Option.isSome] at this
      | some n =>
          have hrest : ∀ o ∈ rest, o.isSome := fun o ho => h o (List.mem_cons_of_mem _ ho)
          obtain ⟨r, hr⟩ := ih hrest
          refine ⟨createPOI T file (getPosition n) :: r, ?_⟩
          simp only [calleePOIsGo, hr]

theorem getRequiredModules_isSome_ok (ns : List (Option Node)) (file : String) (dyn : Bool)
    (h : ∀ o ∈ ns, o.isSome) : ∃ l, getRequiredModules ns file dyn = .ok l := by
  obtain ⟨⟨req, d⟩, hgo⟩ := getRequiredModulesGo_isSome_ok file ns ([], []) h
  refine ⟨if dyn then d else req, ?_⟩
  simp only [getRequiredModules, hgo, Except.bind, bind, pure, Except.pure]

/-- C10 (amended): on a parsed tree in which every `require`, `eval` and
`Function` call expression carries at least one argument, all seven
detection functions return finding lists without throwing
(`getEnvAccesses` and `getAccessesToGlobalProps` are total by
construction); a zero-argument call makes the corresponding function
throw instead. -/
theorem claim_C10_no_throw_with_args (tree : Node) (file : String)
    (hreq : ∀ o ∈ findCallee "require" tree, o.isSome)
    (heval : ∀ o ∈ findCallee "eval" tree, o.isSome)
    (hfn : ∀ o ∈ findCallee "Function" tree, o.isSome) :
    (∃ l, getIOModules tree file = .ok l) ∧
    (∃ l, getArbitraryExecutionMods tree file = .ok l) ∧
    (∃ l, unusualUsesOfRequire tree file = .ok l) ∧
    (∃ l, getEvalCalls tree file = .ok l) ∧
    (∃ l, getFunctionClassAccesses tree file = .ok l) := by
  obtain ⟨lr, hlr⟩ := getRequiredModules_isSome_ok (findCallee "require" tree) file false hreq
  obtain ⟨ld, hld⟩ := getRequiredModules_isSome_ok (findCallee "require" tree) file true hreq
  obtain ⟨le, hle⟩ := calleePOIsGo_isSome_ok "Eval Call" file (findCallee "eval" tree) heval
  obtain ⟨lf, hlf⟩ := calleePOIsGo_isSome_ok "Function constructor usage" file
    (findCallee "Function" tree) hfn
  refine ⟨⟨List.filter (fun mod => ioModuleList.contains mod.type) lr, ?_⟩,
      ⟨List.filter (fun mod => arbitraryExecutionMods.contains mod.type) lr, ?_⟩,
      ⟨locateAliases tree file "require" ++ ld ++ locatePropAccessesOfFuncs tree file "require",
        ?_⟩,
      ⟨le ++ locateAliases tree file "eval" ++ locatePropAccessesOfFuncs tree file "eval", ?_⟩,
      ⟨lf ++ locateAliases tree file "Function" ++
        locatePropAccessesOfFuncs tree file "Function", ?_⟩⟩
  · simp [getIOModules, findModules, hlr, Except.bind, bind, pure, Except.pure]
  · simp [getArbitraryExecutionMods, findModules, hlr, Except.bind, bind, pure, Except.pure]
  · simp [unusualUsesOfRequire, hld, Except.bind, bind, pure, Except.pure]
  · simp [getEvalCalls, hle, Except.bind, bind, pure, Except.pure]
  · simp [getFunctionClassAccesses, hlf, Except.bind, bind, pure, Except.pure]

/-- C10 witness: on `require('http')` every sensitive call carries an
argument and all five fallible detection functions return. -/
theorem claim_C10_no_throw_with_args_witness :
    (∀ o ∈ findCallee "require" requireHttpTree, o.isSome) ∧
    (∃ l, getIOModules requireHttpTree "f" = .ok l) := by
  have hreq : ∀ o ∈ findCallee "require" requireHttpTree, o.isSome := by decide
  have heval : ∀ o ∈ findCallee "eval" requireHttpTree, o.isSome := by decide
  have hfn : ∀ o ∈ findCallee "Function" requireHttpTree, o.isSome := by decide
  exact ⟨hreq, (claim_C10_no_throw_with_args requireHttpTree "f" hreq heval hfn).1⟩

theorem memoLe_refl (s : RState) : MemoLe s s := fun _ _ h => h

mutual
theorem resolvePathsRec_memoLe (fp : String → String → String) (t : RTree) (p : String)
    (s : RState) : MemoLe s (resolvePathsRec fp t p s).2 := by
  cases t with
  | mk nm ver deps =>
      have hch := resolveChildren_memoLe fp deps (fp nm p) s
      rcases hrc : resolveChildren fp deps (fp nm p) s with ⟨ids, s1⟩
      rw [hrc] at hch
      simp only [resolvePathsRec, hrc]
      cases hlook : s1.memo.lookup (fp nm p) with
      | none =>
          intro k v hkv
          have h1 := hch k v hkv
          simp only [List.lookup]
          have hk : (k == fp nm p) = false := by
            by_contra hcontra
            have : k = fp nm p := by
              cases hbe : (k == fp nm p)
              · exact absurd hbe hcontra
              · exact eq_of_beq hbe
            rw [this] at h1
            rw [h1] at hlook
            exact Option.noConfusion hlook
          rw [hk]
          exact h1
      | some i => exact hch
theorem resolveChildren_memoLe (fp : String → String → String) (f : RForest) (p : String)
    (s : RState) : MemoLe s (resolveChildren fp f p s).2 := by
  cases f with
  | nil => exact memoLe_refl s
  | cons t rest =>
      have h1 := resolvePathsRec_memoLe fp t p s
      rcases hr1 : resolvePathsRec fp t p s with ⟨i, s1⟩
      rw [hr1] at h1
      have h2 := resolveChildren_memoLe fp rest p s1
      rcases hr2 : resolveChildren fp rest p s1 with ⟨is, s2⟩
      rw [hr2] at h2
      simp only [resolveChildren, hr1, hr2]
      exact fun k v hkv => h2 k v (h1 k v hkv)
end

theorem resolvePathsRec_lookup (fp : String → String → String) (t : RTree) (p : String)
    (s : RState) :
    (resolvePathsRec fp t p s).2.memo.lookup (fp t.name p) =
      some (resolvePathsRec fp t p s).1 := by
  cases t with
  | mk nm ver deps =>
      simp only [RTree.name]
      rcases hrc : resolveChildren fp deps (fp nm p) s with ⟨ids, s1⟩
      simp only [resolvePathsRec, hrc]
      cases hlook : s1.memo.lookup (fp nm p) with
      | none => simp [List.lookup]
      | some i => simpa using hlook

/-- C5: any two node resolutions whose `findPath` results coincide return
the same arena index — the same node object.  The second resolution may
start from any state whose memo extends the one left by the first, which
covers every later resolution within the same `resolvePaths` run, so two
parents that depend on the same installed copy share one subtree. -/
theorem claim_C5_resolved_path_dedup (fp : String → String → String)
    (t₁ : RTree) (p₁ : String) (s : RState) (t₂ : RTree) (p₂ : String) (s' : RState)
    (hle : MemoLe (resolvePathsRec fp t₁ p₁ s).2 s')
    (hpath : fp t₂.name p₂ = fp t₁.name p₁) :
    (resolvePathsRec fp t₂ p₂ s').1 = (resolvePathsRec fp t₁ p₁ s).1 := by
  have h1 := resolvePathsRec_lookup fp t₁ p₁ s
  have h2 : s'.memo.lookup (fp t₁.name p₁) = some (resolvePathsRec fp t₁ p₁ s).1 :=
    hle _ _ h1
  cases t₂ with
  | mk nm ver deps =>
      have hpath' : fp nm p₂ = fp t₁.name p₁ := hpath
      have hch := resolveChildren_memoLe fp deps (fp nm p₂) s'
      rcases hrc : resolveChildren fp deps (fp nm p₂) s' with ⟨ids, s1⟩
      rw [hrc] at hch
      have h3 : s1.memo.lookup (fp t₁.name p₁) = some (resolvePathsRec fp t₁ p₁ s).1 :=
        hch _ _ h2
      rw [hpath'] at hrc
      simp only [resolvePathsRec, hpath', hrc, h3]

/-- C5 witness: resolving the same leaf package from the same parent path
twice in a row returns the same arena index. -/
theorem claim_C5_resolved_path_dedup_witness :
    MemoLe (resolvePathsRec (fun nm p => p ++ "/node_modules/" ++ nm)
        (.mk "c" "1.0.0" .nil) "/r" ⟨[], []⟩).2
      (resolvePathsRec (fun nm p => p ++ "/node_modules/" ++ nm)
        (.mk "c" "1.0.0" .nil) "/r" ⟨[], []⟩).2 ∧
    (resolvePathsRec (fun nm p => p ++ "/node_modules/" ++ nm) (.mk "c" "1.0.0" .nil) "/r"
      (resolvePathsRec (fun nm p => p ++ "/node_modules/" ++ nm)
        (.mk "c" "1.0.0" .nil) "/r" ⟨[], []⟩).2).1 =
    (resolvePathsRec (fun nm p => p ++ "/node_modules/" ++ nm)
      (.mk "c" "1.0.0" .nil) "/r" ⟨[], []⟩).1 :=
  ⟨memoLe_refl _,
   claim_C5_resolved_path_dedup (fun nm p => p ++ "/node_modules/" ++ nm)
     (.mk "c" "1.0.0" .nil) "/r" ⟨[], []⟩ (.mk "c" "1.0.0" .nil) "/r" _
     (memoLe_refl _) rfl⟩

theorem lookup_fst_eq {l : List (String × (String × String))}
    (hl : ∀ e ∈ l, (e.2).1 = e.1) :
    ∀ {n : String} {v : String × String}, l.lookup n = some v → v.1 = n := by
  induction l with
  | nil => intro n v h; cases h
  | cons e rest ih =>
      intro n v h
      rcases e with ⟨k, val⟩
      simp only [List.lookup] at h
      cases hbe : (n == k) with
      | true =>
          rw [hbe] at h
          simp only [Option.some.injEq] at h
          subst h
          have hk := hl ⟨k, val⟩ (List.mem_cons_self _ _)
          simp only at hk
          rw [hk]
          exact (eq_of_beq hbe).symm
      | false =>
          rw [hbe] at h
          exact ih (fun e he => hl e (List.mem_cons_of_mem _ he)) h

theorem rootScope_val_fst (pjson : Manifest) (ld : List (String × LockEntry)) :
    ∀ e ∈ rootScope pjson ld, (e.2).1 = e.1 := by
  intro e he
  simp only [rootScope, List.mem_append, List.mem_map, List.mem_singleton] at he
  rcases he with ⟨x, -, rfl⟩ | rfl <;> rfl

theorem lookup_none_of_not_mem_keys {β : Type} {l : List (String × β)} {k : String}
    (h : k ∉ l.map Prod.fst) : l.lookup k = none := by
  induction l with
  | nil => rfl
  | cons e rest ih =>
      rcases e with ⟨k', v⟩
      simp only [List.map_cons, List.mem_cons] at h
      push_neg at h
      simp only [List.lookup]
      have hbe : (k == k') = false := by
        cases hkk : (k == k')
        · rfl
        · exact absurd (eq_of_beq hkk) h.1
      rw [hbe]
      exact ih h.2

theorem attachRoot_ok (pjson : Manifest) (ld : List (String × LockEntry)) :
    ∀ (deps : List (String × String)),
    (∀ nr ∈ deps, ((rootScope pjson ld).lookup nr.1).isSome) →
    ∃ ch, (deps.mapM fun nr =>
        match (rootScope pjson ld).lookup nr.1 with
        | none => Except.error "Dependencies of package.json and package-lock.json do not match"
        | some nv => Except.ok nv) = .ok ch ∧
      ch.map Prod.fst = deps.map Prod.fst := by
  intro deps
  induction deps with
  | nil => exact fun _ => ⟨[], rfl, rfl⟩
  | cons nr rest ih =>
      intro h
      have hnr := h nr (List.mem_cons_self _ _)
      obtain ⟨v, hv⟩ := Option.isSome_iff_exists.mp hnr
      obtain ⟨ch, hch, hnames⟩ := ih (fun x hx => h x (List.mem_cons_of_mem _ hx))
      refine ⟨v :: ch, ?_, ?_⟩
      · simp only [List.mapM_cons, hv, hch, bind, Except.bind, pure, Except.pure]
      · simp only [List.map_cons, hnames, List.cons.injEq, and_true]
        exact lookup_fst_eq (rootScope_val_fst pjson ld) hv

theorem attachRoot_error (pjson : Manifest) (ld : List (String × LockEntry)) :
    ∀ (deps : List (String × String)) (n : String),
    n ∈ deps.map Prod.fst → (rootScope pjson ld).lookup n = none →
    (deps.mapM fun nr =>
        match (rootScope pjson ld).lookup nr.1 with
        | none => Except.error "Dependencies of package.json and package-lock.json do not match"
        | some nv => Except.ok nv) =
      (.error "Dependencies of package.json and package-lock.json do not match" :
        Except String (List (String × String))) := by
  intro deps
  induction deps with
  | nil => intro n h; cases h
  | cons nr rest ih =>
      intro n h hnone
      simp only [List.map_cons, List.mem_cons] at h
      rcases h with rfl | h
      · simp only [List.mapM_cons, hnone, bind, Except.bind]
      · cases hlook : (rootScope pjson ld).lookup nr.1 with
        | none => simp only [List.mapM_cons, hlook, bind, Except.bind]
        | some v =>
            simp only [List.mapM_cons, hlook, bind, Except.bind, ih n h hnone]

/-- C6 counterexample: with an empty runtime dependency map and the
development dependency `d` (present in the lockfile), the generated root
has no children at all, although `d` belongs to the union of the two
dependency maps. -/
theorem claim_C6_counterexample :
    generatePackageGraph manifestDevOnly lockWithD = .ok ⟨"root-project", "1.0.0", []⟩ ∧
    "d" ∈ (manifestDevOnly.dependencies ++ manifestDevOnly.devDependencies).map Prod.fst := by
  constructor
  · rfl
  · simp [manifestDevOnly]

/-- C6 (amended): the root's declared dependencies are the names of the
manifest's runtime dependency map only — development dependencies are
never consulted — and one child per declared name is attached in mapping
insertion order by root-scope lookup. -/
theorem claim_C6_runtime_dependencies_only (pjson : Manifest) (lock : PackageLock)
    (ld : List (String × LockEntry)) (dd' : List (String × String))
    (hlock : lock.dependencies = some ld)
    (h : ∀ nr ∈ pjson.dependencies, ((rootScope pjson ld).lookup nr.1).isSome) :
    ∃ ch, generatePackageGraph pjson lock = .ok ⟨pjson.name, pjson.version, ch⟩ ∧
      ch.map Prod.fst = pjson.dependencies.map Prod.fst ∧
      generatePackageGraph ⟨pjson.name, pjson.version, pjson.dependencies, dd'⟩ lock =
        .ok ⟨pjson.name, pjson.version, ch⟩ := by
  obtain ⟨ch, hch, hnames⟩ := attachRoot_ok pjson ld pjson.dependencies h
  refine ⟨ch, ?_, hnames, ?_⟩
  · simp only [generatePackageGraph, hlock, hch, bind, Except.bind, pure, Except.pure]
  · simp only [generatePackageGraph, hlock, bind, Except.bind, pure, Except.pure]
    rcases pjson with ⟨nm, ver, deps, dd⟩
    simp only [rootScope] at hch ⊢
    rw [hch]

/-- C6 witness: a manifest with runtime dependency `d` and any
development map gets precisely the child `d`, which does not change when
the development map is replaced. -/
theorem claim_C6_runtime_dependencies_only_witness :
    (∀ nr ∈ ([("d", "^1.0.0")] : List (String × String)),
      ((rootScope ⟨"root-project", "1.0.0", [("d", "^1.0.0")], []⟩
        [("d", ⟨"1.0.0"⟩)]).lookup nr.1).isSome) ∧
    ∃ ch, generatePackageGraph ⟨"root-project", "1.0.0", [("d", "^1.0.0")], []⟩
        ⟨"root-project", "1.0.0", some [("d", ⟨"1.0.0"⟩)]⟩ =
        .ok ⟨"root-project", "1.0.0", ch⟩ ∧
      ch.map Prod.fst = [("d", "^1.0.0")].map Prod.fst ∧
      generatePackageGraph ⟨"root-project", "1.0.0", [("d", "^1.0.0")], [("x", "1")]⟩
        ⟨"root-project", "1.0.0", some [("d", ⟨"1.0.0"⟩)]⟩ =
        .ok ⟨"root-project", "1.0.0", ch⟩ := by
  refine ⟨by decide, ?_⟩
  exact claim_C6_runtime_dependencies_only ⟨"root-project", "1.0.0", [("d", "^1.0.0")], []⟩
    ⟨"root-project", "1.0.0", some [("d", ⟨"1.0.0"⟩)]⟩ [("d", ⟨"1.0.0"⟩)] [("x", "1")]
    rfl (by decide)

/-- C7 counterexample: the manifest declares `a`, the lockfile has no
top-level dependency map at all, yet `generatePackageGraph` returns the
bare root with no children instead of failing. -/
theorem claim_C7_counterexample :
    generatePackageGraph manifestWithA lockNoDeps = .ok ⟨"root-project", "1.0.0", []⟩ ∧
    "a" ∈ manifestWithA.dependencies.map Prod.fst := by
  exact ⟨rfl, by simp [manifestWithA]⟩

/-- C7 (amended): when the lockfile has a top-level dependency map and
the manifest declares a dependency name that is absent from it and
different from the project's own name, `generatePackageGraph` fails with
the mismatch error and returns no graph; when the lockfile has no
dependency map, the bare root with no children is returned instead. -/
theorem claim_C7_graph_inconsistency (pjson : Manifest) (lock : PackageLock)
    (ld : List (String × LockEntry)) (n r : String)
    (hlock : lock.dependencies = some ld)
    (hmem : (n, r) ∈ pjson.dependencies)
    (habsent : n ∉ ld.map Prod.fst)
    (hname : n ≠ pjson.name) :
    generatePackageGraph pjson lock =
      .error "Dependencies of package.json and package-lock.json do not match" := by
  have hnone : (rootScope pjson ld).lookup n = none := by
    apply lookup_none_of_not_mem_keys
    simp only [rootScope, List.map_append, List.map_map, List.mem_append, List.mem_map,
      List.map_cons, List.map_nil, List.mem_singleton]
    rintro (⟨x, hx, hfst⟩ | hn)
    · exact habsent (List.mem_map.mpr ⟨x, hx, hfst⟩)
    · exact hname hn
  have hn' : n ∈ pjson.dependencies.map Prod.fst :=
    List.mem_map.mpr ⟨(n, r), hmem, rfl⟩
  simp only [generatePackageGraph, hlock, bind, Except.bind,
    attachRoot_error pjson ld pjson.dependencies n hn' hnone]

/-- C7 witness: a present-but-incomplete lockfile map makes the
generation fail with the mismatch error. -/
theorem claim_C7_graph_inconsistency_witness :
    ("a", "^1.0.0") ∈ manifestWithA.dependencies ∧
    generatePackageGraph manifestWithA ⟨"root-project", "1.0.0", some []⟩ =
      .error "Dependencies of package.json and package-lock.json do not match" := by
  refine ⟨by simp [manifestWithA], ?_⟩
  exact claim_C7_graph_inconsistency manifestWithA ⟨"root-project", "1.0.0", some []⟩ []
    "a" "^1.0.0" rfl (by simp [manifestWithA]) (by simp) (by decide)

theorem findPath_none_of_no_install (fs : FileSys) (mod : String)
    (h : ∀ p, ¬(fs.pathExists (p ++ ["node_modules", mod]) = true ∧
               fs.isDir (p ++ ["node_modules", mod]) = true)) :
    ∀ (n : Nat) (p : List String),
      findPath fs mod n p = none ∧ findPathWalkUp fs mod n p = none := by
  intro n
  induction n with
  | zero => exact fun p => ⟨rfl, rfl⟩
  | succ k ih =>
      intro p
      constructor
      · have hcond : (fs.pathExists (p ++ ["node_modules", mod]) &&
            fs.isDir (p ++ ["node_modules", mod])) = false := by
          cases h1 : fs.pathExists (p ++ ["node_modules", mod]) <;>
            cases h2 : fs.isDir (p ++ ["node_modules", mod]) <;>
            simp_all [h p]
        simp only [findPath, hcond, Bool.false_eq_true, if_false]
        exact (ih (dirUp p)).2
      · simp only [findPathWalkUp]
        by_cases hpkg : (fs.entries p).contains "package.json"
        · simp only [hpkg, if_true]
          exact (ih p).1
        · simp only [hpkg, Bool.false_eq_true, if_false]
          exact (ih (dirUp p)).2

/-- C8 counterexample: on a filesystem where the module is installed
nowhere and no directory lists a `package.json`, `findPath` never
terminates — no fuel bound ever produces a result — so no
path-resolution error is surfaced either. -/
theorem claim_C8_counterexample : ¬ findPathTerminates fsEmpty "m" ["home", "app"] := by
  rintro ⟨n, r, hn⟩
  have h := (findPath_none_of_no_install fsEmpty "m"
    (by intro p; simp [fsEmpty]) n ["home", "app"]).1
  rw [h] at hn
  exact Option.noConfusion hn

/-- C8 (amended): when no directory contains an installed
`node_modules/<mod>` folder, `findPath` diverges — it returns no result
under any fuel bound — rather than surfacing a fatal error: the walk up
`path.dirname` loops at the filesystem root and the function has no
error outcome at all. -/
theorem claim_C8_findPath_diverges (fs : FileSys) (mod : String)
    (h : ∀ p, ¬(fs.pathExists (p ++ ["node_modules", mod]) = true ∧
               fs.isDir (p ++ ["node_modules", mod]) = true)) :
    ∀ (n : Nat) (p : List String), findPath fs mod n p = none :=
  fun n p => (findPath_none_of_no_install fs mod h n p).1

/-- C8 witness: on the empty filesystem the probe hypothesis holds and
`findPath` yields nothing even with a large fuel bound. -/
theorem claim_C8_findPath_diverges_witness :
    (∀ p, ¬(fsEmpty.pathExists (p ++ ["node_modules", "m"]) = true ∧
            fsEmpty.isDir (p ++ ["node_modules", "m"]) = true)) ∧
    findPath fsEmpty "m" 1000 ["home", "app"] = none := by
  have hp : ∀ p, ¬(fsEmpty.pathExists (p ++ ["node_modules", "m"]) = true ∧
      fsEmpty.isDir (p ++ ["node_modules", "m"]) = true) := by
    intro p
    simp [fsEmpty]
  exact ⟨hp, claim_C8_findPath_diverges fsEmpty "m" hp 1000 ["home", "app"]⟩
